import Mathlib

/-!
Shallow embedding of the batch-processing and prompt-chain execution engine of
the PromptStudio backend (`app/services/batch_service.py` and
`app/services/prompt_chain_service.py`).

Modelling conventions:

* The LLM gateway call sitting inside each retry loop (prompt rendering plus
  provider invocation, `_process_regular` / `_process_structured` /
  `llm_service.generate` / `instructor_service.extract`) is abstracted as an
  *attempt oracle* `Nat → Except String α`: attempt `i` either raises (models
  a Python exception, carrying `str(e)`) or returns the produced value.
* `asyncio` concurrency is modelled by its observable effect on final state:
  `asyncio.gather(..., return_exceptions=True)` settles every scheduled task
  and yields their outcomes in task order, which the Python engine then folds
  into the job state sequentially (the `for ... in zip(...)` loop).
* Wall-clock fields (`latency_ms`, `created_at`/`started_at`/`completed_at`)
  and token accounting are not modelled; the backoff delays requested from
  `asyncio.sleep` are recorded explicitly in traces.  Python `float` seconds
  are modelled as `ℚ`.
* Python values stored in chain results and the chain context are modelled by
  `PyVal` (None / str / dict), with Python truthiness; structured payloads are
  flattened to string-valued dicts, which preserves dict-ness and emptiness.
* The cooperative cancellation flag of a batch run only moves from `False` to
  `True`; it is modelled as a single Boolean for the run.
* `BatchStatus.PARTIAL = "partial"` is rendered as the constructor
  `partialRes` because its Python name is a reserved Lean keyword.
-/

/-- A Python value as it appears in chain contexts and step outputs:
`None`, a string, or a (flattened) dict. -/
inductive PyVal where
  | none
  | str (s : String)
  | dict (entries : List (String × String))
  deriving DecidableEq, Repr, Inhabited

/-- Python truthiness for `PyVal`: `None` and empty strings/dicts are falsy. -/
def PyVal.truthy : PyVal → Bool
  | PyVal.none => false
  | PyVal.str s => !s.isEmpty
  | PyVal.dict d => !d.isEmpty

/-- Python `isinstance(v, dict)`. -/
def PyVal.isDict : PyVal → Bool
  | PyVal.dict _ => true
  | _ => false

/-- Python `a or b`. -/
def pyOr (a b : PyVal) : PyVal := if a.truthy then a else b

/-- A Python dict used as chain context: association list in insertion order. -/
abbrev Ctx := List (String × PyVal)

/-- Python `k in ctx` (key membership). -/
def ctxMem (ctx : Ctx) (k : String) : Bool := ctx.any (fun p => decide (p.1 = k))

/-- Python `ctx[k] = v`: overwrite in place if the key exists (keeping
insertion order), else append. -/
def ctxInsert (ctx : Ctx) (k : String) (v : PyVal) : Ctx :=
  if ctxMem ctx k then ctx.map (fun p => if p.1 = k then (k, v) else p)
  else ctx ++ [(k, v)]

/-- Python `\x7b**a, **b\x7d`: start from `a`, then write every binding of `b`. -/
def ctxMerge (a b : Ctx) : Ctx := b.foldl (fun acc p => ctxInsert acc p.1 p.2) a

/-- `BatchStatus` (`batch_service.py`); `partialRes` models `PARTIAL`. -/
inductive BatchStatus where
  | pending
  | running
  | completed
  | failed
  | cancelled
  | partialRes
  deriving DecidableEq, Repr

/-- `BatchItemStatus` (`batch_service.py`). -/
inductive BatchItemStatus where
  | pending
  | processing
  | completed
  | failed
  | skipped
  deriving DecidableEq, Repr

/-- `BatchItem`: id, prompt, optional system prompt.  The `variables` and
`metadata` dicts only feed the rendered prompt, which is abstracted into the
attempt oracle, so they are not carried here. -/
structure BatchItem where
  id : String
  prompt : String
  system_prompt : Option String
  deriving DecidableEq, Repr

/-- `BatchItemResult` (wall-clock latency and token usage omitted). -/
structure BatchItemResult where
  item_id : String
  status : BatchItemStatus
  input_prompt : String
  output : Option String
  structured_output : Option String
  error : Option String
  retry_count : Nat
  deriving DecidableEq, Repr

/-- `BatchConfig` (model/provider/temperature knobs only feed the abstracted
LLM call and are omitted). -/
structure BatchConfig where
  max_concurrency : Nat
  rate_limit_per_minute : Nat
  retry_attempts : Nat
  retry_delay_seconds : ℚ
  timeout_seconds : ℚ
  stop_on_error : Bool
  output_schema : Option String
  deriving DecidableEq, Repr

/-- Pydantic defaults of `BatchConfig`. -/
def defaultConfig : BatchConfig :=
  { max_concurrency := 5, rate_limit_per_minute := 60, retry_attempts := 3,
    retry_delay_seconds := 1, timeout_seconds := 60, stop_on_error := false,
    output_schema := Option.none }

/-- `BatchJob` (timestamps and token totals omitted). -/
structure BatchJob where
  id : String
  name : String
  status : BatchStatus
  items : List BatchItem
  config : BatchConfig
  results : List BatchItemResult
  progress : ℚ
  deriving DecidableEq, Repr

/-- `BatchService.create_job`: pure construction with status `pending` and no
results.  The uuid default is passed in as `jobId`. -/
def create_job (jobId : String) (name : String) (items : List BatchItem)
    (config : BatchConfig) : BatchJob :=
  { id := jobId, name := name, status := BatchStatus.pending, items := items,
    config := config, results := [], progress := 0 }

/-- Trace of one `_process_item` call: the returned result or the re-raised
exception, the number of attempts entered, and the `asyncio.sleep` delays
requested (in seconds). -/
structure ItemTrace where
  result : Except String BatchItemResult
  attemptsMade : Nat
  delays : List ℚ
  deriving Repr

/-- The `for attempt in range(config.retry_attempts + 1)` loop of
`BatchService._process_item`.  `fuel` counts the loop iterations still
available (`retry_attempts + 1 - attempt`); `retryCount` and `lastError` are
the Python locals of the same names.  On an attempt failure the loop sleeps
`retry_delay_seconds * 2 ** attempt` when a retry remains, then re-raises when
`stop_on_error` is set; falling off the loop returns a `failed` result. -/
def _process_item_go (cfg : BatchConfig) (item : BatchItem)
    (oracle : Nat → Except String String) :
    Nat → Nat → Option String → Nat → ItemTrace
  | 0, _, lastError, retryCount =>
    let r : BatchItemResult :=
      { item_id := item.id, status := BatchItemStatus.failed,
        input_prompt := item.prompt, output := Option.none,
        structured_output := Option.none, error := lastError,
        retry_count := retryCount }
    { result := Except.ok r, attemptsMade := 0, delays := [] }
  | fuel + 1, attempt, _, retryCount =>
    match oracle attempt with
    | Except.ok content =>
      let r : BatchItemResult :=
        { item_id := item.id, status := BatchItemStatus.completed,
          input_prompt := item.prompt,
          output := if cfg.output_schema.isSome then Option.none else Option.some content,
          structured_output := if cfg.output_schema.isSome then Option.some content else Option.none,
          error := Option.none, retry_count := retryCount }
      { result := Except.ok r, attemptsMade := 1, delays := [] }
    | Except.error e =>
      let delays0 := if attempt < cfg.retry_attempts
        then [cfg.retry_delay_seconds * 2 ^ attempt] else []
      if cfg.stop_on_error then
        { result := Except.error e, attemptsMade := 1, delays := delays0 }
      else
        let rest := _process_item_go cfg item oracle fuel (attempt + 1) (Option.some e) attempt
        { result := rest.result, attemptsMade := rest.attemptsMade + 1,
          delays := delays0 ++ rest.delays }

/-- `BatchService._process_item`: cancellation check, then the retry loop.
The semaphore and rate-limiter waits do not affect the recorded outcome. -/
def _process_item (cfg : BatchConfig) (cancelled : Bool) (item : BatchItem)
    (oracle : Nat → Except String String) : ItemTrace :=
  if cancelled then
    let r : BatchItemResult :=
      { item_id := item.id, status := BatchItemStatus.skipped,
        input_prompt := item.prompt, output := Option.none,
        structured_output := Option.none, error := Option.some "Job cancelled",
        retry_count := 0 }
    { result := Except.ok r, attemptsMade := 0, delays := [] }
  else _process_item_go cfg item oracle (cfg.retry_attempts + 1) 0 Option.none 0

/-- One settled entry of `asyncio.gather(..., return_exceptions=True)` as
`run_job` folds it into `job.results`: a task that re-raised is recorded as a
`failed` result with `error = str(exception)` and default `retry_count = 0`. -/
def settleItem (cfg : BatchConfig) (cancelled : Bool)
    (oracle : Nat → Except String String) (item : BatchItem) : BatchItemResult :=
  match (_process_item cfg cancelled item oracle).result with
  | Except.ok r => r
  | Except.error e =>
    { item_id := item.id, status := BatchItemStatus.failed,
      input_prompt := item.prompt, output := Option.none,
      structured_output := Option.none, error := Option.some e, retry_count := 0 }

/-- The `pending_items` filter of `run_job`: items with no result yet. -/
def pendingItems (job : BatchJob) : List BatchItem :=
  job.items.filter (fun item => !(job.results.any (fun r => decide (r.item_id = item.id))))

/-- `failed_count` of `run_job`. -/
def failedCount (results : List BatchItemResult) : Nat :=
  (results.filter (fun r => decide (r.status = BatchItemStatus.failed))).length

/-- The final-status derivation of `run_job` (lines 248-257). -/
def deriveStatus (cancelled : Bool) (results : List BatchItemResult) : BatchStatus :=
  if cancelled then BatchStatus.cancelled
  else if failedCount results = 0 then BatchStatus.completed
  else if failedCount results = results.length then BatchStatus.failed
  else BatchStatus.partialRes

/-- The body of `BatchService.run_job` after its precondition checks:
schedule one task per pending item, settle them all, append their results,
and derive the final status. -/
def run_job_core (cancelled : Bool) (oracle : BatchItem → Nat → Except String String)
    (job : BatchJob) : BatchJob :=
  let newResults := (pendingItems job).map (fun item =>
    settleItem job.config cancelled (oracle item) item)
  let results := job.results ++ newResults
  { job with results := results, status := deriveStatus cancelled results, progress := 1 }

/-- The `BatchService` instance state relevant to `run_job`: the `_jobs` and
`_cancel_flags` dicts. -/
structure BatchServiceState where
  jobs : List (String × BatchJob)
  cancelFlags : List (String × Bool)
  deriving Repr

/-- `BatchService.get_job`. -/
def get_job (s : BatchServiceState) (jobId : String) : Option BatchJob :=
  (s.jobs.find? (fun p => decide (p.1 = jobId))).map (fun p => p.2)

/-- `self._cancel_flags.get(job_id)` (falsy when absent). -/
def getCancelFlag (s : BatchServiceState) (jobId : String) : Bool :=
  ((s.cancelFlags.find? (fun p => decide (p.1 = jobId))).map (fun p => p.2)).getD false

/-- Store an updated job back under its id. -/
def setJob (s : BatchServiceState) (jobId : String) (job : BatchJob) : BatchServiceState :=
  { s with jobs := s.jobs.map (fun p => if p.1 = jobId then (jobId, job) else p) }

/-- `BatchService.run_job`: `ValueError` when the id is unknown, `ValueError`
when the status is neither `pending` nor `partial`, otherwise run the job.
The returned state is the `_jobs` dict after the call. -/
def run_job (s : BatchServiceState) (jobId : String)
    (oracle : BatchItem → Nat → Except String String) :
    BatchServiceState × Except String BatchJob :=
  match get_job s jobId with
  | Option.none => (s, Except.error ("Job not found: " ++ jobId))
  | Option.some job =>
    if job.status = BatchStatus.pending ∨ job.status = BatchStatus.partialRes then
      let done := run_job_core (getCancelFlag s jobId) oracle job
      (setJob s jobId done, Except.ok done)
    else
      (s, Except.error "Job cannot be started")

/-- `TokenBucket` state: capacity and current (fractional) balance. -/
structure TokenBucket where
  tokens_per_minute : Nat
  tokens : ℚ
  deriving Repr

/-- `TokenBucket.__init__`: the balance starts at the configured capacity. -/
def TokenBucket.init (tpm : Nat) : TokenBucket :=
  { tokens_per_minute := tpm, tokens := (tpm : ℚ) }

/-- `TokenBucket._refill`: add `elapsed * (tokens_per_minute / 60)` tokens,
capped at `tokens_per_minute`. -/
def TokenBucket._refill (b : TokenBucket) (elapsed : ℚ) : TokenBucket :=
  let new_tokens := elapsed * ((b.tokens_per_minute : ℚ) / 60)
  { b with tokens := min (b.tokens_per_minute : ℚ) (b.tokens + new_tokens) }

/-- The `while self.tokens < 1` wait loop of `TokenBucket.acquire`: each list
entry is the wall-clock time elapsed across one sleep, consumed by the refill
that follows it.  `none` means the supplied schedule ended with the caller
still blocked; `some` is the state after the final `self.tokens -= 1`. -/
def TokenBucket.acquireLoop : TokenBucket → List ℚ → Option TokenBucket
  | b, [] =>
    if 1 ≤ b.tokens then Option.some ({ b with tokens := b.tokens - 1 }) else Option.none
  | b, e :: rest =>
    if 1 ≤ b.tokens then Option.some ({ b with tokens := b.tokens - 1 })
    else TokenBucket.acquireLoop (b._refill e) rest

/-- `TokenBucket.acquire`: refill for the `e0` seconds elapsed since the last
refill, then wait (per `waits`) until a token is available and debit one. -/
def TokenBucket.acquire (b : TokenBucket) (e0 : ℚ) (waits : List ℚ) : Option TokenBucket :=
  TokenBucket.acquireLoop (b._refill e0) waits

/-- Iterated refills along a list of elapsed times. -/
def refillsAlong (b : TokenBucket) : List ℚ → TokenBucket
  | [] => b
  | e :: rest => refillsAlong (b._refill e) rest

/-- One observable transition of a `TokenBucket`: a refill for a nonnegative
elapsed time, or a completed `acquire`. -/
inductive BucketStep : TokenBucket → TokenBucket → Prop where
  | refillStep (b : TokenBucket) (e : ℚ) (he : 0 ≤ e) : BucketStep b (b._refill e)
  | acquireStep (b b' : TokenBucket) (e0 : ℚ) (waits : List ℚ)
      (h : b.acquire e0 waits = Option.some b') : BucketStep b b'

/-- `ChainStepStatus` (`prompt_chain_service.py`). -/
inductive ChainStepStatus where
  | pending
  | running
  | completed
  | failed
  | skipped
  deriving DecidableEq, Repr

/-- `ChainExecutionMode` (`prompt_chain_service.py`). -/
inductive ChainExecutionMode where
  | sequential
  | parallel
  | conditional
  deriving DecidableEq, Repr

/-- `ChainStepDefinition` (model/temperature/max-token knobs feed only the
abstracted LLM call and are omitted). -/
structure ChainStepDefinition where
  id : String
  name : String
  prompt_template : String
  system_prompt : Option String
  dependencies : List String
  condition : Option String
  output_key : String
  output_schema : Option String
  retry_count : Nat
  deriving DecidableEq, Repr

/-- `ChainDefinition` (opaque `metadata` omitted); `vars` models the
`variables` field, whose Python name is reserved in Lean. -/
structure ChainDefinition where
  id : String
  name : String
  description : String
  steps : List ChainStepDefinition
  execution_mode : ChainExecutionMode
  vars : Ctx
  deriving DecidableEq, Repr

/-- `ChainStepResult` (wall-clock latency and token usage omitted);
`output`/`structured_output` use `PyVal.none` for Python `None`. -/
structure ChainStepResult where
  step_id : String
  step_name : String
  status : ChainStepStatus
  output : PyVal
  structured_output : PyVal
  error : Option String
  deriving DecidableEq, Repr

/-- `ChainExecutionResult` (total latency and token totals omitted). -/
structure ChainExecutionResult where
  chain_id : String
  chain_name : String
  success : Bool
  steps : List ChainStepResult
  final_output : PyVal
  context : Ctx
  error : Option String
  deriving DecidableEq, Repr

/-- The skipped-step record produced when a dependency check fails
(`_execute_sequential` and `stream_execute`). -/
def skipRec (step : ChainStepDefinition) : ChainStepResult :=
  { step_id := step.id, step_name := step.name, status := ChainStepStatus.skipped,
    output := PyVal.none, structured_output := PyVal.none,
    error := Option.some "Dependencies not met" }

/-- The skipped-step record produced when a condition evaluates falsy
(`_execute_conditional`). -/
def condSkipRec (step : ChainStepDefinition) : ChainStepResult :=
  { step_id := step.id, step_name := step.name, status := ChainStepStatus.skipped,
    output := PyVal.none, structured_output := PyVal.none,
    error := Option.some "Condition not met" }

/-- Trace of one `_execute_step` call: the returned result, the number of
attempts entered, and the `asyncio.sleep` backoff delays requested. -/
structure StepTrace where
  result : ChainStepResult
  attemptsMade : Nat
  delays : List ℚ
  deriving Repr

/-- The `for attempt in range(step.retry_count + 1)` loop of
`PromptChainService._execute_step`.  An attempt-oracle success is the value
already put through `model_dump`/`str` (a dict exactly when the structured
branch produced a dict); a failure sleeps `2 ** attempt` seconds when a retry
remains.  Falling off the loop returns a `failed` result with the last
error. -/
def _execute_step_go (step : ChainStepDefinition) (oracle : Nat → Except String PyVal) :
    Nat → Nat → Option String → StepTrace
  | 0, _, lastError =>
    let r : ChainStepResult :=
      { step_id := step.id, step_name := step.name, status := ChainStepStatus.failed,
        output := PyVal.none, structured_output := PyVal.none, error := lastError }
    { result := r, attemptsMade := 0, delays := [] }
  | fuel + 1, attempt, _ =>
    match oracle attempt with
    | Except.ok output =>
      let structured := if output.isDict then output else PyVal.none
      let r : ChainStepResult :=
        { step_id := step.id, step_name := step.name, status := ChainStepStatus.completed,
          output := if structured.truthy then PyVal.none else output,
          structured_output := structured, error := Option.none }
      { result := r, attemptsMade := 1, delays := [] }
    | Except.error e =>
      let delays0 := if attempt < step.retry_count then [(2 : ℚ) ^ attempt] else []
      let rest := _execute_step_go step oracle fuel (attempt + 1) (Option.some e)
      { result := rest.result, attemptsMade := rest.attemptsMade + 1,
        delays := delays0 ++ rest.delays }

/-- `PromptChainService._execute_step`. -/
def _execute_step (step : ChainStepDefinition) (oracle : Nat → Except String PyVal) :
    StepTrace :=
  _execute_step_go step oracle (step.retry_count + 1) 0 Option.none

/-- Per-step attempt oracle for a chain run: step id and current context
determine the gateway outcome of each attempt. -/
abbrev StepOracle := String → Ctx → Nat → Except String PyVal

/-- `PromptChainService._check_dependencies`: every declared dependency id
must appear among the `completed` results so far. -/
def _check_dependencies (step : ChainStepDefinition)
    (completed_results : List ChainStepResult) : Bool :=
  step.dependencies.all (fun dep =>
    completed_results.any (fun r =>
      decide (r.step_id = dep) && decide (r.status = ChainStepStatus.completed)))

/-- The post-step context update shared by all execution modes:
`context[step.output_key] = result.structured_output or result.output`,
performed only for `completed` results. -/
def ctxUpdate (ctx : Ctx) (step : ChainStepDefinition) (r : ChainStepResult) : Ctx :=
  if r.status = ChainStepStatus.completed
  then ctxInsert ctx step.output_key (pyOr r.structured_output r.output)
  else ctx

/-- The loop of `PromptChainService._execute_sequential`; `done` is the
accumulated `results` list the dependency check reads. -/
def _execute_sequential_go (oracle : StepOracle) :
    List ChainStepDefinition → List ChainStepResult → Ctx →
    List ChainStepResult × Ctx
  | [], _, ctx => ([], ctx)
  | step :: rest, done, ctx =>
    if _check_dependencies step done then
      let r := (_execute_step step (oracle step.id ctx)).result
      let out := _execute_sequential_go oracle rest (done ++ [r]) (ctxUpdate ctx step r)
      (r :: out.1, out.2)
    else
      let r := skipRec step
      let out := _execute_sequential_go oracle rest (done ++ [r]) ctx
      (r :: out.1, out.2)

/-- `PromptChainService._execute_sequential` (also returns the final mutated
context, which `execute_chain` snapshots). -/
def _execute_sequential (oracle : StepOracle) (steps : List ChainStepDefinition)
    (ctx : Ctx) : List ChainStepResult × Ctx :=
  _execute_sequential_go oracle steps [] ctx

/-- The resolvability test of `_group_by_dependency_level`: all dependencies
of a step are in the resolved-id set. -/
def resolvable (resolved : List String) (step : ChainStepDefinition) : Bool :=
  step.dependencies.all (fun dep => resolved.any (fun x => decide (x = dep)))

/-- Auxiliary: removing the selected steps shrinks the remainder (stated as a
`def` so that every declaration before the theorem section is a definition). -/
def length_filter_neg_lt {α : Type} (p : α → Bool) (l : List α)
    (h : l.filter p ≠ []) : (l.filter (fun a => !p a)).length < l.length := by
  induction l with
  | nil => simp at h
  | cons a t ih =>
    by_cases hp : p a
    · have : (t.filter (fun a => !p a)).length ≤ t.length := t.length_filter_le _
      simp [List.filter_cons, hp]
      omega
    · have hpa : p a = false := by simpa using hp
      have ht : t.filter p ≠ [] := by
        simpa [List.filter_cons, hpa] using h
      have := ih ht
      simp [List.filter_cons, hpa]
      omega

/-- The `while remaining:` loop of
`PromptChainService._group_by_dependency_level`.  Each iteration selects every
remaining step whose dependencies are resolved; if none is selectable
(cycle or missing reference) all remaining steps become one final level. -/
def _group_go (remaining : List ChainStepDefinition) (resolved : List String) :
    List (List ChainStepDefinition) :=
  match hr : remaining with
  | [] => []
  | _ :: _ =>
    let current := remaining.filter (resolvable resolved)
    if hc : current = [] then [remaining]
    else
      current :: _group_go (remaining.filter (fun s => !resolvable resolved s))
        (resolved ++ current.map (fun s => s.id))
termination_by remaining.length
decreasing_by
  rw [← hr]
  exact length_filter_neg_lt (resolvable resolved) remaining hc

/-- `PromptChainService._group_by_dependency_level`. -/
def _group_by_dependency_level (steps : List ChainStepDefinition) :
    List (List ChainStepDefinition) :=
  _group_go steps []

/-- Ids of all steps in a list of levels (the `resolved_ids` accumulated after
processing those levels). -/
def levelIds (levels : List (List ChainStepDefinition)) : List String :=
  levels.flatten.map (fun s => s.id)

/-- The level loop of `PromptChainService._execute_parallel`: every step of a
level runs against the pre-level context; the level's completed results then
update the context before the next level starts. -/
def _execute_parallel_go (oracle : StepOracle) :
    List (List ChainStepDefinition) → Ctx → List ChainStepResult × Ctx
  | [], ctx => ([], ctx)
  | level :: rest, ctx =>
    let rs := level.map (fun step => (_execute_step step (oracle step.id ctx)).result)
    let ctx' := (level.zip rs).foldl (fun c p => ctxUpdate c p.1 p.2) ctx
    let out := _execute_parallel_go oracle rest ctx'
    (rs ++ out.1, out.2)

/-- `PromptChainService._execute_parallel`. -/
def _execute_parallel (oracle : StepOracle) (steps : List ChainStepDefinition)
    (ctx : Ctx) : List ChainStepResult × Ctx :=
  _execute_parallel_go oracle (_group_by_dependency_level steps) ctx

/-- `PromptChainService._execute_conditional`.  `condOracle` models Python
`eval` of the condition string against the context: `none` models an
evaluation exception, which the source logs and treats as "run"; an empty
condition string is falsy in Python, so no condition is evaluated. -/
def _execute_conditional_go (oracle : StepOracle)
    (condOracle : String → Ctx → Option Bool) :
    List ChainStepDefinition → Ctx → List ChainStepResult × Ctx
  | [], ctx => ([], ctx)
  | step :: rest, ctx =>
    let skipByCondition :=
      match step.condition with
      | Option.none => false
      | Option.some c =>
        if c.isEmpty then false
        else
          match condOracle c ctx with
          | Option.some b => !b
          | Option.none => false
    if skipByCondition then
      let out := _execute_conditional_go oracle condOracle rest ctx
      (condSkipRec step :: out.1, out.2)
    else
      let r := (_execute_step step (oracle step.id ctx)).result
      let out := _execute_conditional_go oracle condOracle rest (ctxUpdate ctx step r)
      (r :: out.1, out.2)

/-- The reversed-scan loop of `execute_chain` computing `final_output`: the
first `completed` result from the end contributes
`structured_output or output`. -/
def lastCompletedFrom : List ChainStepResult → PyVal
  | [] => PyVal.none
  | r :: rest =>
    if r.status = ChainStepStatus.completed then pyOr r.structured_output r.output
    else lastCompletedFrom rest

/-- `final_output` as `execute_chain` computes it. -/
def finalOutputOf (step_results : List ChainStepResult) : PyVal :=
  lastCompletedFrom step_results.reverse

/-- `PromptChainService.execute_chain` (the non-exception path; in the model
no strategy raises, so the `except` branch is unreachable). -/
def execute_chain (chain : ChainDefinition) (vars : Ctx) (oracle : StepOracle)
    (condOracle : String → Ctx → Option Bool) : ChainExecutionResult :=
  let context := ctxMerge chain.vars vars
  let out :=
    match chain.execution_mode with
    | ChainExecutionMode.sequential => _execute_sequential oracle chain.steps context
    | ChainExecutionMode.parallel => _execute_parallel oracle chain.steps context
    | ChainExecutionMode.conditional => _execute_conditional_go oracle condOracle chain.steps context
  { chain_id := chain.id, chain_name := chain.name,
    success := out.1.all (fun r => decide (r.status = ChainStepStatus.completed)),
    steps := out.1,
    final_output := finalOutputOf out.1,
    context := out.2, error := Option.none }

/-- The loop of `PromptChainService.stream_execute`, instrumented so that each
yielded result is paired with the context the step's dependency check read.
Dependencies are checked by *key membership in the context*, not by result
status. -/
def stream_execute_go (oracle : StepOracle) :
    List ChainStepDefinition → Ctx → List (Ctx × ChainStepResult)
  | [], _ => []
  | step :: rest, ctx =>
    if step.dependencies.all (fun dep => ctxMem ctx dep) then
      let r := (_execute_step step (oracle step.id ctx)).result
      (ctx, r) :: stream_execute_go oracle rest (ctxUpdate ctx step r)
    else
      (ctx, skipRec step) :: stream_execute_go oracle rest ctx

/-- `PromptChainService.stream_execute`: the sequence of yielded results. -/
def stream_execute (chain : ChainDefinition) (vars : Ctx) (oracle : StepOracle) :
    List ChainStepResult :=
  (stream_execute_go oracle chain.steps (ctxMerge chain.vars vars)).map (fun p => p.2)

/-- Placeholder result used with positional `getD` list access. -/
def dummyStepResult : ChainStepResult :=
  { step_id := "", step_name := "", status := ChainStepStatus.pending,
    output := PyVal.none, structured_output := PyVal.none, error := Option.none }

/-- Placeholder context/result pair used with positional `getD` access. -/
def dummyCtxResult : Ctx × ChainStepResult := ([], dummyStepResult)

/-- Concrete batch item used in witnesses and counterexamples. -/
def itemA : BatchItem := { id := "a", prompt := "pa", system_prompt := Option.none }

/-- Concrete batch item used in witnesses and counterexamples. -/
def itemB : BatchItem := { id := "b", prompt := "pb", system_prompt := Option.none }

/-- Config with two retries and `stop_on_error = True`. -/
def cfgStop : BatchConfig := { defaultConfig with retry_attempts := 2, stop_on_error := true }

/-- Config with two retries and `stop_on_error = False`. -/
def cfgNoStop : BatchConfig := { defaultConfig with retry_attempts := 2, stop_on_error := false }

/-- Attempt oracle that always raises. -/
def failOracle : Nat → Except String String := fun _ => Except.error "boom"

/-- Attempt oracle that always succeeds. -/
def okOracle : Nat → Except String String := fun _ => Except.ok "out"

/-- Job oracle: item `a` always raises, every other item succeeds. -/
def oracleAB : BatchItem → Nat → Except String String :=
  fun it => if it.id = "a" then failOracle else okOracle

/-- Two-item pending job under `cfgStop`. -/
def jobAB : BatchJob :=
  { id := "j1", name := "job", status := BatchStatus.pending, items := [itemA, itemB],
    config := cfgStop, results := [], progress := 0 }

/-- A result already recorded for item `a`. -/
def resA : BatchItemResult :=
  { item_id := "a", status := BatchItemStatus.completed, input_prompt := "pa",
    output := Option.some "out", structured_output := Option.none,
    error := Option.none, retry_count := 0 }

/-- A `partial` job in which only item `a` has a result. -/
def jobPartial : BatchJob :=
  { id := "j3", name := "job", status := BatchStatus.partialRes, items := [itemA, itemB],
    config := defaultConfig, results := [resA], progress := 0 }

/-- The empty `BatchService` state. -/
def emptyService : BatchServiceState := { jobs := [], cancelFlags := [] }

/-- Concrete chain step `a` with no dependencies, output key `out`. -/
def stepA : ChainStepDefinition :=
  { id := "a", name := "A", prompt_template := "p", system_prompt := Option.none,
    dependencies := [], condition := Option.none, output_key := "out",
    output_schema := Option.none, retry_count := 0 }

/-- Concrete chain step `b` depending on step `a`. -/
def stepB : ChainStepDefinition :=
  { id := "b", name := "B", prompt_template := "p", system_prompt := Option.none,
    dependencies := ["a"], condition := Option.none, output_key := "outb",
    output_schema := Option.none, retry_count := 0 }

/-- Concrete chain step `x` with output key `kx` (distinct from its id). -/
def stepX : ChainStepDefinition :=
  { id := "x", name := "X", prompt_template := "p", system_prompt := Option.none,
    dependencies := [], condition := Option.none, output_key := "kx",
    output_schema := Option.none, retry_count := 0 }

/-- Concrete chain step `b` depending on step `x`. -/
def stepBX : ChainStepDefinition :=
  { id := "b", name := "B", prompt_template := "p", system_prompt := Option.none,
    dependencies := ["x"], condition := Option.none, output_key := "outb",
    output_schema := Option.none, retry_count := 0 }

/-- A self-dependent chain step (cyclic configuration). -/
def stepCyc : ChainStepDefinition :=
  { id := "c", name := "C", prompt_template := "p", system_prompt := Option.none,
    dependencies := ["c"], condition := Option.none, output_key := "outc",
    output_schema := Option.none, retry_count := 0 }

/-- Step oracle that always succeeds with a plain string. -/
def okStepOracle : StepOracle := fun _ _ _ => Except.ok (PyVal.str "v")

/-- Step oracle under which step `a` always raises and others succeed. -/
def failAOracle : StepOracle :=
  fun sid _ _ => if sid = "a" then Except.error "boom" else Except.ok (PyVal.str "v")

/-- Step oracle under which step `x` always raises and others succeed. -/
def failXOracle : StepOracle :=
  fun sid _ _ => if sid = "x" then Except.error "boom" else Except.ok (PyVal.str "v")

/-- Condition oracle that always models an evaluation exception. -/
def noCondOracle : String → Ctx → Option Bool := fun _ _ => Option.none

/-- Sequential chain `a` then `b (depends on a)`, no initial variables. -/
def chainAB : ChainDefinition :=
  { id := "c1", name := "CAB", description := "", steps := [stepA, stepB],
    execution_mode := ChainExecutionMode.sequential, vars := [] }

/-- Sequential chain whose first step `x` stores output under key `kx`, with
an initial variable bound to key `x`. -/
def chainXB : ChainDefinition :=
  { id := "c2", name := "CXB", description := "", steps := [stepX, stepBX],
    execution_mode := ChainExecutionMode.sequential, vars := [("x", PyVal.str "v0")] }

/-- Sequential chain with no steps. -/
def chainEmpty : ChainDefinition :=
  { id := "c0", name := "CE", description := "", steps := [],
    execution_mode := ChainExecutionMode.sequential, vars := [] }

/-- Behaviour of the `_process_item` retry loop on an always-failing oracle
with `stop_on_error = False`, generalized over the loop state. -/
theorem _process_item_go_allFail (cfg : BatchConfig) (item : BatchItem)
    (errf : Nat → String) (h : cfg.stop_on_error = false) :
    ∀ (fuel a : Nat) (le : Option String) (rc : Nat),
      a + fuel = cfg.retry_attempts + 1 →
      (_process_item_go cfg item (fun i => Except.error (errf i)) fuel a le rc).attemptsMade = fuel ∧
      (_process_item_go cfg item (fun i => Except.error (errf i)) fuel a le rc).delays =
        (List.range' a (fuel - 1)).map (fun i => cfg.retry_delay_seconds * 2 ^ i) ∧
      (_process_item_go cfg item (fun i => Except.error (errf i)) fuel a le rc).result =
        Except.ok
          { item_id := item.id, status := BatchItemStatus.failed,
            input_prompt := item.prompt, output := Option.none,
            structured_output := Option.none,
            error := if fuel = 0 then le else Option.some (errf cfg.retry_attempts),
            retry_count := if fuel = 0 then rc else cfg.retry_attempts } := by
  intro fuel
  induction fuel with
  | zero =>
    intro a le rc hsum
    simp [_process_item_go]
  | succ n ih =>
    intro a le rc hsum
    have hk : a + n = cfg.retry_attempts := by omega
    obtain ⟨h1, h2, h3⟩ := ih (a + 1) (Option.some (errf a)) a (by omega)
    refine ⟨?_, ?_, ?_⟩
    · simp [_process_item_go, h, h1]
    · rcases Nat.eq_zero_or_pos n with hn | hn
      · have ha : a = cfg.retry_attempts := by omega
        subst hn
        simp [_process_item_go, h, h2, ha]
      · have halt : a < cfg.retry_attempts := by omega
        have hn' : n - 1 + 1 = n := by omega
        simp only [_process_item_go, h, Bool.false_eq_true, if_false, h2]
        rw [if_pos halt]
        rw [show (n + 1 - 1) = (n - 1) + 1 by omega, List.range'_succ]
        simp [hn']
    · rcases Nat.eq_zero_or_pos n with hn | hn
      · have ha : a = cfg.retry_attempts := by omega
        subst hn
        simp [_process_item_go, h, h3, ha]
      · have hn0 : n ≠ 0 := by omega
        simp [_process_item_go, h, h3, hn0]

/-- Behaviour of the `_execute_step` retry loop on an always-failing oracle,
generalized over the loop state. -/
theorem _execute_step_go_allFail (step : ChainStepDefinition) (errf : Nat → String) :
    ∀ (fuel a : Nat) (le : Option String),
      a + fuel = step.retry_count + 1 →
      (_execute_step_go step (fun i => Except.error (errf i)) fuel a le).attemptsMade = fuel ∧
      (_execute_step_go step (fun i => Except.error (errf i)) fuel a le).delays =
        (List.range' a (fuel - 1)).map (fun i => (2 : ℚ) ^ i) ∧
      (_execute_step_go step (fun i => Except.error (errf i)) fuel a le).result =
        { step_id := step.id, step_name := step.name, status := ChainStepStatus.failed,
          output := PyVal.none, structured_output := PyVal.none,
          error := if fuel = 0 then le else Option.some (errf step.retry_count) } := by
  intro fuel
  induction fuel with
  | zero =>
    intro a le hsum
    simp [_execute_step_go]
  | succ n ih =>
    intro a le hsum
    have hk : a + n = step.retry_count := by omega
    obtain ⟨h1, h2, h3⟩ := ih (a + 1) (Option.some (errf a)) (by omega)
    refine ⟨?_, ?_, ?_⟩
    · simp [_execute_step_go, h1]
    · rcases Nat.eq_zero_or_pos n with hn | hn
      · have ha : a = step.retry_count := by omega
        subst hn
        simp [_execute_step_go, h2, ha]
      · have halt : a < step.retry_count := by omega
        have hn' : n - 1 + 1 = n := by omega
        simp only [_execute_step_go, h2]
        rw [if_pos halt]
        rw [show (n + 1 - 1) = (n - 1) + 1 by omega, List.range'_succ]
        simp [hn']
    · rcases Nat.eq_zero_or_pos n with hn | hn
      · have ha : a = step.retry_count := by omega
        subst hn
        simp [_execute_step_go, h3, ha]
      · have hn0 : n ≠ 0 := by omega
        simp [_execute_step_go, h3, hn0]

/-- C4 (confirmed): with `stop_on_error = False` and `retry_attempts = k`, an
always-failing batch item is attempted exactly `k+1` times, sleeping
`retry_delay_seconds * 2 ^ i` after attempt `i` for `i < k`, and its recorded
result is `failed` with the last error message and `retry_count = k`; an
always-failing chain step under `retry_count = k` is likewise attempted
exactly `k+1` times with backoff delays `2 ^ i` seconds (base 1 second) and
recorded `failed` with the last error message. -/
theorem C4_theorem (cfg : BatchConfig) (item : BatchItem) (errf : Nat → String)
    (h : cfg.stop_on_error = false) (step : ChainStepDefinition) (errf2 : Nat → String) :
    (_process_item cfg false item (fun i => Except.error (errf i))).attemptsMade =
      cfg.retry_attempts + 1 ∧
    (_process_item cfg false item (fun i => Except.error (errf i))).delays =
      (List.range cfg.retry_attempts).map (fun i => cfg.retry_delay_seconds * 2 ^ i) ∧
    (_process_item cfg false item (fun i => Except.error (errf i))).result =
      Except.ok
        { item_id := item.id, status := BatchItemStatus.failed,
          input_prompt := item.prompt, output := Option.none,
          structured_output := Option.none,
          error := Option.some (errf cfg.retry_attempts),
          retry_count := cfg.retry_attempts } ∧
    (_execute_step step (fun i => Except.error (errf2 i))).attemptsMade =
      step.retry_count + 1 ∧
    (_execute_step step (fun i => Except.error (errf2 i))).delays =
      (List.range step.retry_count).map (fun i => (2 : ℚ) ^ i) ∧
    (_execute_step step (fun i => Except.error (errf2 i))).result =
      { step_id := step.id, step_name := step.name, status := ChainStepStatus.failed,
        output := PyVal.none, structured_output := PyVal.none,
        error := Option.some (errf2 step.retry_count) } := by
  obtain ⟨b1, b2, b3⟩ := _process_item_go_allFail cfg item errf h
    (cfg.retry_attempts + 1) 0 Option.none 0 (by omega)
  obtain ⟨c1, c2, c3⟩ := _execute_step_go_allFail step errf2
    (step.retry_count + 1) 0 Option.none (by omega)
  refine ⟨?_, ?_, ?_, ?_, ?_, ?_⟩
  · simpa [_process_item] using b1
  · simpa [_process_item, List.range_eq_range'] using b2
  · simpa [_process_item] using b3
  · simpa [_execute_step] using c1
  · simpa [_execute_step, List.range_eq_range'] using c2
  · simpa [_execute_step] using c3

/-- C4 witness: the theorem applied at `retry_attempts = 2`,
`retry_count = 2`, discharging the `stop_on_error = False` hypothesis. -/
theorem C4_witness :
    (_process_item cfgNoStop false itemA (fun _ => Except.error "boom")).attemptsMade =
      cfgNoStop.retry_attempts + 1 ∧
    (_execute_step { stepA with retry_count := 2 }
      (fun _ => Except.error "boom")).attemptsMade =
      ({ stepA with retry_count := 2 } : ChainStepDefinition).retry_count + 1 := by
  obtain ⟨b1, _, _, c1, _, _⟩ := C4_theorem cfgNoStop itemA (fun _ => "boom")
    (by decide) ({ stepA with retry_count := 2 }) (fun _ => "boom")
  exact ⟨b1, c1⟩

/-- C1 counterexample: under `stop_on_error = True` and `retry_attempts = 2`,
an always-failing item is attempted exactly once — not `2 + 1` times — and
the raised exception does not abort the sibling item: the job run records the
failing item as `failed` and still runs item `b` to completion. -/
theorem C1_counterexample :
    (_process_item cfgStop false itemA failOracle).attemptsMade = 1 ∧
    ¬ (_process_item cfgStop false itemA failOracle).attemptsMade =
        cfgStop.retry_attempts + 1 ∧
    (run_job_core false oracleAB jobAB).results =
      [ { item_id := "a", status := BatchItemStatus.failed, input_prompt := "pa",
          output := Option.none, structured_output := Option.none,
          error := Option.some "boom", retry_count := 0 },
        { item_id := "b", status := BatchItemStatus.completed, input_prompt := "pb",
          output := Option.some "out", structured_output := Option.none,
          error := Option.none, retry_count := 0 } ] ∧
    (run_job_core false oracleAB jobAB).status = BatchStatus.partialRes := by
  refine ⟨by decide, by decide, by decide, by decide⟩

/-- C1 (corrected, amended): with `stop_on_error = True`, an item whose first
attempt fails re-raises immediately after sleeping the first backoff delay —
it is attempted exactly once, its per-item retries are not used — and the
exception does not abort sibling items: `gather(..., return_exceptions=True)`
captures it, the item is recorded `failed` with the exception message and
`retry_count = 0`, and every pending item still contributes exactly its own
settled result to the run. -/
theorem C1_theorem (cfg : BatchConfig) (item : BatchItem) (e : String)
    (oracle : Nat → Except String String)
    (h : cfg.stop_on_error = true) (h0 : oracle 0 = Except.error e) :
    (_process_item cfg false item oracle).result = Except.error e ∧
    (_process_item cfg false item oracle).attemptsMade = 1 ∧
    (_process_item cfg false item oracle).delays =
      (if 0 < cfg.retry_attempts then [cfg.retry_delay_seconds] else []) ∧
    settleItem cfg false oracle item =
      { item_id := item.id, status := BatchItemStatus.failed,
        input_prompt := item.prompt, output := Option.none,
        structured_output := Option.none, error := Option.some e,
        retry_count := 0 } ∧
    (∀ (job : BatchJob) (oracles : BatchItem → Nat → Except String String) (c : Bool),
      (run_job_core c oracles job).results =
        job.results ++ (pendingItems job).map (fun it => settleItem job.config c (oracles it) it)) := by
  have hres : (_process_item cfg false item oracle).result = Except.error e := by
    simp [_process_item, _process_item_go, h0, h]
  refine ⟨hres, ?_, ?_, ?_, ?_⟩
  · simp [_process_item, _process_item_go, h0, h]
  · simp [_process_item, _process_item_go, h0, h]
  · simp [settleItem, hres]
  · intro job oracles c
    simp [run_job_core]

/-- C1 witness: the amended theorem applied at `cfgStop` and the always
failing oracle, with both hypotheses discharged concretely. -/
theorem C1_witness :
    (_process_item cfgStop false itemA failOracle).result = Except.error "boom" ∧
    (_process_item cfgStop false itemA failOracle).delays =
      (if 0 < cfgStop.retry_attempts then [cfgStop.retry_delay_seconds] else []) := by
  obtain ⟨h1, _, h3, _, _⟩ := C1_theorem cfgStop itemA "boom" failOracle (by decide) rfl
  exact ⟨h1, h3⟩

/-- C2 counterexample: for the empty result set (reachable by running a job
with no items) every result is vacuously `failed`, yet the derived status is
`completed`, not `failed` — so the claimed "failed iff every result is
failed" biconditional does not hold for the empty result set. -/
theorem C2_counterexample :
    (run_job_core false (fun _ _ => Except.error "boom")
      (create_job "j0" "empty" [] defaultConfig)).results = [] ∧
    (∀ r ∈ (run_job_core false (fun _ _ => Except.error "boom")
      (create_job "j0" "empty" [] defaultConfig)).results,
        r.status = BatchItemStatus.failed) ∧
    (run_job_core false (fun _ _ => Except.error "boom")
      (create_job "j0" "empty" [] defaultConfig)).status = BatchStatus.completed ∧
    ¬ (run_job_core false (fun _ _ => Except.error "boom")
      (create_job "j0" "empty" [] defaultConfig)).status = BatchStatus.failed := by
  refine ⟨by decide, ?_, by decide, by decide⟩
  intro r hr
  simp [run_job_core, create_job, pendingItems, deriveStatus] at hr

/-- `failed_count` never exceeds the number of results. -/
theorem failedCount_le (rs : List BatchItemResult) : failedCount rs ≤ rs.length :=
  rs.length_filter_le _

/-- C2 (corrected, amended): once a run finishes, the final status is derived
deterministically from the result set — `cancelled` iff the cancel flag was
raised; otherwise `completed` iff zero results are failed, `failed` iff all
results are failed *and the result set is nonempty*, and `partial` iff
strictly between zero and all are failed; the empty result set yields
`completed` even though "all results failed" holds vacuously. -/
theorem C2_theorem :
    (∀ (c : Bool) (rs : List BatchItemResult),
      (deriveStatus c rs = BatchStatus.cancelled ↔ c = true)) ∧
    (∀ rs : List BatchItemResult,
      (deriveStatus false rs = BatchStatus.completed ↔ failedCount rs = 0)) ∧
    (∀ rs : List BatchItemResult,
      (deriveStatus false rs = BatchStatus.failed ↔
        (failedCount rs = rs.length ∧ rs ≠ []))) ∧
    (∀ rs : List BatchItemResult,
      (deriveStatus false rs = BatchStatus.partialRes ↔
        (0 < failedCount rs ∧ failedCount rs < rs.length))) ∧
    (∀ (c : Bool) (oracle : BatchItem → Nat → Except String String) (job : BatchJob),
      (run_job_core c oracle job).status =
        deriveStatus c (run_job_core c oracle job).results) := by
  have e : ∀ rs : List BatchItemResult, deriveStatus false rs =
      (if failedCount rs = 0 then BatchStatus.completed
       else if failedCount rs = rs.length then BatchStatus.failed
       else BatchStatus.partialRes) := by
    intro rs; simp [deriveStatus]
  refine ⟨?_, ?_, ?_, ?_, ?_⟩
  · intro c rs
    cases c with
    | true => simp [deriveStatus]
    | false =>
      simp only [Bool.false_eq_true, iff_false]
      rw [e]
      by_cases h0 : failedCount rs = 0
      · rw [if_pos h0]; decide
      · rw [if_neg h0]
        by_cases h1 : failedCount rs = rs.length
        · rw [if_pos h1]; decide
        · rw [if_neg h1]; decide
  · intro rs
    rw [e]
    by_cases h0 : failedCount rs = 0
    · rw [if_pos h0]; simp [h0]
    · rw [if_neg h0]
      by_cases h1 : failedCount rs = rs.length
      · rw [if_pos h1]; simp [h0]
      · rw [if_neg h1]; simp [h0]
  · intro rs
    rw [e]
    by_cases h0 : failedCount rs = 0
    · rw [if_pos h0]
      constructor
      · intro h; exact absurd h (by decide)
      · rintro ⟨h1, h2⟩
        exact absurd (List.length_eq_zero.mp (by omega)) h2
    · rw [if_neg h0]
      by_cases h1 : failedCount rs = rs.length
      · rw [if_pos h1]
        constructor
        · intro _
          refine ⟨h1, ?_⟩
          intro hnil
          subst hnil
          simp [failedCount] at h0
        · intro _; rfl
      · rw [if_neg h1]
        constructor
        · intro h; exact absurd h (by decide)
        · rintro ⟨hh, _⟩; exact absurd hh h1
  · intro rs
    have hle := failedCount_le rs
    rw [e]
    by_cases h0 : failedCount rs = 0
    · rw [if_pos h0]
      constructor
      · intro h; exact absurd h (by decide)
      · rintro ⟨hh, _⟩; omega
    · rw [if_neg h0]
      by_cases h1 : failedCount rs = rs.length
      · rw [if_pos h1]
        constructor
        · intro h; exact absurd h (by decide)
        · rintro ⟨_, hh⟩; omega
      · rw [if_neg h1]
        constructor
        · intro _; constructor <;> omega
        · intro _; rfl
  · intro c oracle job
    simp [run_job_core]

/-- C9 (confirmed): `run_job` raises exactly when the job id is unknown or
the stored job's status is neither `pending` nor `partial`; in both error
cases the stored state is returned unchanged, and in the non-error case the
call returns the run's result job. -/
theorem C9_theorem (s : BatchServiceState) (jobId : String)
    (oracle : BatchItem → Nat → Except String String) :
    (get_job s jobId = Option.none →
      run_job s jobId oracle = (s, Except.error ("Job not found: " ++ jobId))) ∧
    (∀ job : BatchJob, get_job s jobId = Option.some job →
      job.status ≠ BatchStatus.pending → job.status ≠ BatchStatus.partialRes →
      run_job s jobId oracle = (s, Except.error "Job cannot be started")) ∧
    (∀ job : BatchJob, get_job s jobId = Option.some job →
      (job.status = BatchStatus.pending ∨ job.status = BatchStatus.partialRes) →
      (run_job s jobId oracle).2 =
        Except.ok (run_job_core (getCancelFlag s jobId) oracle job)) := by
  refine ⟨?_, ?_, ?_⟩
  · intro h
    simp [run_job, h]
  · intro job hj h1 h2
    have : ¬ (job.status = BatchStatus.pending ∨ job.status = BatchStatus.partialRes) := by
      tauto
    simp [run_job, hj, this]
  · intro job hj hok
    simp [run_job, hj, hok]

/-- C9 witness: the theorem applied to the empty service and an unknown id,
discharging the unknown-id hypothesis by evaluation. -/
theorem C9_witness :
    run_job emptyService "x" (fun _ _ => Except.error "e") =
      (emptyService, Except.error ("Job not found: " ++ "x")) :=
  (C9_theorem emptyService "x" (fun _ _ => Except.error "e")).1 rfl

/-- A refill never lifts the balance above the configured capacity. -/
theorem refill_tokens_le (b : TokenBucket) (e : ℚ) :
    (b._refill e).tokens ≤ (b.tokens_per_minute : ℚ) := by
  simp [TokenBucket._refill]

/-- Refills do not change the configured capacity. -/
theorem refillsAlong_tpm (l : List ℚ) : ∀ b : TokenBucket,
    (refillsAlong b l).tokens_per_minute = b.tokens_per_minute := by
  induction l with
  | nil => intro b; rfl
  | cons e rest ih => intro b; simpa [refillsAlong] using ih (b._refill e)

/-- Iterated refills preserve the capacity bound on the balance. -/
theorem refillsAlong_tokens_le (l : List ℚ) : ∀ b : TokenBucket,
    b.tokens ≤ (b.tokens_per_minute : ℚ) →
    (refillsAlong b l).tokens ≤ ((refillsAlong b l).tokens_per_minute : ℚ) := by
  induction l with
  | nil => intro b hb; simpa [refillsAlong] using hb
  | cons e rest ih =>
    intro b _
    simpa [refillsAlong] using ih (b._refill e) (refill_tokens_le b e)

/-- Every successful pass through the `acquire` wait loop reaches, by some
number of sleep-and-refill rounds, a state holding at least one token and
debits exactly one token from it. -/
theorem acquireLoop_spec (es : List ℚ) : ∀ (b b' : TokenBucket),
    TokenBucket.acquireLoop b es = Option.some b' →
    ∃ n : Nat, 1 ≤ (refillsAlong b (es.take n)).tokens ∧
      b'.tokens = (refillsAlong b (es.take n)).tokens - 1 ∧
      b'.tokens_per_minute = b.tokens_per_minute := by
  induction es with
  | nil =>
    intro b b' h
    by_cases hb : 1 ≤ b.tokens
    · refine ⟨0, by simpa [refillsAlong] using hb, ?_, ?_⟩ <;>
        · simp [TokenBucket.acquireLoop, hb] at h
          simp [← h, refillsAlong]
    · simp [TokenBucket.acquireLoop, hb] at h
  | cons e rest ih =>
    intro b b' h
    by_cases hb : 1 ≤ b.tokens
    · refine ⟨0, by simpa [refillsAlong] using hb, ?_, ?_⟩ <;>
        · simp [TokenBucket.acquireLoop, hb] at h
          simp [← h, refillsAlong]
    · simp only [TokenBucket.acquireLoop, if_neg hb] at h
      obtain ⟨n, h1, h2, h3⟩ := ih (b._refill e) b' h
      exact ⟨n + 1, by simpa [refillsAlong] using h1,
        by simpa [refillsAlong] using h2, by simpa using h3⟩

/-- C5 (confirmed): the token bucket starts with balance equal to its
configured capacity, every refill caps the balance at the capacity, every
successful acquire debits exactly one token from a state holding at least one
token, and along any sequence of refills and successful acquires from the
initial state the balance never exceeds the configured capacity. -/
theorem C5_theorem (tpm : Nat) :
    (TokenBucket.init tpm).tokens = (tpm : ℚ) ∧
    (∀ (b : TokenBucket) (e : ℚ), (b._refill e).tokens ≤ (b.tokens_per_minute : ℚ)) ∧
    (∀ (b : TokenBucket) (es : List ℚ) (b' : TokenBucket),
      TokenBucket.acquireLoop b es = Option.some b' →
      ∃ n : Nat, 1 ≤ (refillsAlong b (es.take n)).tokens ∧
        b'.tokens = (refillsAlong b (es.take n)).tokens - 1 ∧
        b'.tokens_per_minute = b.tokens_per_minute) ∧
    (∀ b' : TokenBucket, Relation.ReflTransGen BucketStep (TokenBucket.init tpm) b' →
      b'.tokens ≤ (b'.tokens_per_minute : ℚ)) := by
  refine ⟨rfl, refill_tokens_le, fun b es b' h => acquireLoop_spec es b b' h, ?_⟩
  intro b' h
  induction h with
  | refl => simp [TokenBucket.init]
  | @tail mid fin hrt step ih =>
    cases step with
    | refillStep e he => exact refill_tokens_le mid e
    | acquireStep fin2 e0 waits hac =>
      obtain ⟨n, h1, h2, h3⟩ := acquireLoop_spec waits (mid._refill e0) fin
        (by simpa [TokenBucket.acquire] using hac)
      have hmidle := refillsAlong_tokens_le (waits.take n) (mid._refill e0)
        (refill_tokens_le mid e0)
      have htpm := refillsAlong_tpm (waits.take n) (mid._refill e0)
      rw [h2, h3]
      rw [htpm] at hmidle
      have hcast : ((mid._refill e0).tokens_per_minute : ℚ) = (mid.tokens_per_minute : ℚ) := rfl
      rw [hcast] at hmidle ⊢
      linarith

/-- C5 witness: applied at capacity 60 and the trivial transition chain. -/
theorem C5_witness :
    (TokenBucket.init 60).tokens ≤ ((TokenBucket.init 60).tokens_per_minute : ℚ) :=
  (C5_theorem 60).2.2.2 (TokenBucket.init 60) Relation.ReflTransGen.refl

/-- `_execute_step` only ever reports `completed` or `failed`, never
`skipped`. -/
theorem _execute_step_go_not_skipped (step : ChainStepDefinition)
    (oracle : Nat → Except String PyVal) : ∀ (fuel a : Nat) (le : Option String),
    (_execute_step_go step oracle fuel a le).result.status ≠ ChainStepStatus.skipped := by
  intro fuel
  induction fuel with
  | zero => intro a le; simp [_execute_step_go]
  | succ n ih =>
    intro a le
    cases h : oracle a with
    | ok v => simp [_execute_step_go, h]
    | error e =>
      simpa [_execute_step_go, h] using ih (a + 1) (Option.some e)

/-- Positionwise behaviour of the sequential loop, generalized over the
accumulated results and context. -/
theorem _execute_sequential_go_spec (oracle : StepOracle) :
    ∀ (steps : List ChainStepDefinition) (done : List ChainStepResult) (ctx : Ctx),
      (_execute_sequential_go oracle steps done ctx).1.length = steps.length ∧
      ∀ (i : Nat) (hi : i < steps.length),
        (_check_dependencies (steps.get ⟨i, hi⟩)
            (done ++ (_execute_sequential_go oracle steps done ctx).1.take i) = false →
          (_execute_sequential_go oracle steps done ctx).1.getD i dummyStepResult =
            skipRec (steps.get ⟨i, hi⟩)) ∧
        (((_execute_sequential_go oracle steps done ctx).1.getD i dummyStepResult).status =
            ChainStepStatus.completed →
          _check_dependencies (steps.get ⟨i, hi⟩)
            (done ++ (_execute_sequential_go oracle steps done ctx).1.take i) = true) := by
  intro steps
  induction steps with
  | nil =>
    intro done ctx
    refine ⟨rfl, ?_⟩
    intro i hi
    exact absurd hi (by simp)
  | cons step rest ih =>
    intro done ctx
    by_cases hc : _check_dependencies step done
    · constructor
      · simpa [_execute_sequential_go, hc]
          using (ih (done ++ [(_execute_step step (oracle step.id ctx)).result])
            (ctxUpdate ctx step (_execute_step step (oracle step.id ctx)).result)).1
      · intro i hi
        cases i with
        | zero =>
          constructor
          · intro h
            simp [_execute_sequential_go, hc] at h
          · intro _
            simpa using hc
        | succ j =>
          have hj : j < rest.length := by simpa using hi
          obtain ⟨len', spec'⟩ := ih (done ++ [(_execute_step step (oracle step.id ctx)).result])
            (ctxUpdate ctx step (_execute_step step (oracle step.id ctx)).result)
          obtain ⟨s1, s2⟩ := spec' j hj
          constructor
          · intro h
            have hcheck : _check_dependencies (rest.get ⟨j, hj⟩)
                  ((done ++ [(_execute_step step (oracle step.id ctx)).result]) ++
                    (_execute_sequential_go oracle rest
                    (done ++ [(_execute_step step (oracle step.id ctx)).result])
                    (ctxUpdate ctx step (_execute_step step (oracle step.id ctx)).result)).1.take j) =
                false := by
              simpa [_execute_sequential_go, hc, List.append_assoc] using h
            simpa [_execute_sequential_go, hc] using s1 hcheck
          · intro h
            have h' : ((_execute_sequential_go oracle rest
                (done ++ [(_execute_step step (oracle step.id ctx)).result])
                (ctxUpdate ctx step (_execute_step step (oracle step.id ctx)).result)).1.getD j
                  dummyStepResult).status = ChainStepStatus.completed := by
              simpa [_execute_sequential_go, hc] using h
            have := s2 h'
            simpa [_execute_sequential_go, hc, List.append_assoc] using this
    · have hcf : _check_dependencies step done = false := by simpa using hc
      constructor
      · simpa [_execute_sequential_go, hcf]
          using (ih (done ++ [skipRec step]) ctx).1
      · intro i hi
        cases i with
        | zero =>
          constructor
          · intro _
            simp [_execute_sequential_go, hcf]
          · intro h
            simp [_execute_sequential_go, hcf, skipRec] at h
        | succ j =>
          have hj : j < rest.length := by simpa using hi
          obtain ⟨len', spec'⟩ := ih (done ++ [skipRec step]) ctx
          obtain ⟨s1, s2⟩ := spec' j hj
          constructor
          · intro h
            have hcheck : _check_dependencies (rest.get ⟨j, hj⟩)
                ((done ++ [skipRec step]) ++
                  (_execute_sequential_go oracle rest (done ++ [skipRec step]) ctx).1.take j) =
                false := by
              simpa [_execute_sequential_go, hcf, List.append_assoc] using h
            simpa [_execute_sequential_go, hcf] using s1 hcheck
          · intro h
            have h' : ((_execute_sequential_go oracle rest (done ++ [skipRec step]) ctx).1.getD j
                dummyStepResult).status = ChainStepStatus.completed := by
              simpa [_execute_sequential_go, hcf] using h
            have := s2 h'
            simpa [_execute_sequential_go, hcf, List.append_assoc] using this

/-- C6 (confirmed): in a sequential chain run, a step whose dependency check
against the results-so-far fails is recorded as the skipped record with error
"Dependencies not met" (hence never `completed`), and a step whose recorded
result is `completed` passed its dependency check — i.e. all its dependency
ids appear as `completed` results before it. -/
theorem C6_theorem (oracle : StepOracle) (steps : List ChainStepDefinition) (ctx : Ctx)
    (i : Nat) (hi : i < steps.length) :
    (_execute_sequential oracle steps ctx).1.length = steps.length ∧
    (_check_dependencies (steps.get ⟨i, hi⟩)
        ((_execute_sequential oracle steps ctx).1.take i) = false →
      (_execute_sequential oracle steps ctx).1.getD i dummyStepResult =
          skipRec (steps.get ⟨i, hi⟩) ∧
        ((_execute_sequential oracle steps ctx).1.getD i dummyStepResult).status =
          ChainStepStatus.skipped ∧
        ((_execute_sequential oracle steps ctx).1.getD i dummyStepResult).error =
          Option.some "Dependencies not met") ∧
    (((_execute_sequential oracle steps ctx).1.getD i dummyStepResult).status =
        ChainStepStatus.completed →
      _check_dependencies (steps.get ⟨i, hi⟩)
        ((_execute_sequential oracle steps ctx).1.take i) = true) := by
  obtain ⟨hlen, hspec⟩ := _execute_sequential_go_spec oracle steps [] ctx
  obtain ⟨s1, s2⟩ := hspec i hi
  refine ⟨hlen, ?_, ?_⟩
  · intro h
    have h' : _check_dependencies (steps.get ⟨i, hi⟩)
        ([] ++ (_execute_sequential_go oracle steps [] ctx).1.take i) = false := by
      simpa [_execute_sequential] using h
    have heq := s1 h'
    refine ⟨by simpa [_execute_sequential] using heq, ?_, ?_⟩ <;>
      · rw [show (_execute_sequential oracle steps ctx).1 =
            (_execute_sequential_go oracle steps [] ctx).1 from rfl, heq]
        simp [skipRec]
  · intro h
    have := s2 (by simpa [_execute_sequential] using h)
    simpa [_execute_sequential] using this

/-- C6 witness: in the chain `a ; b (depends on a)` with step `a` always
failing, step `b` is recorded as the skipped record. -/
theorem C6_witness :
    (_execute_sequential failAOracle [stepA, stepB] []).1.getD 1 dummyStepResult =
      skipRec ([stepA, stepB].get ⟨1, by decide⟩) :=
  ((C6_theorem failAOracle [stepA, stepB] [] 1 (by decide)).2.1 (by decide)).1

/-- The `for result in reversed(step_results)` scan equals a `find?` over the
already-reversed list. -/
theorem lastCompletedFrom_eq_find (l : List ChainStepResult) :
    lastCompletedFrom l =
      (match l.find? (fun r => decide (r.status = ChainStepStatus.completed)) with
        | Option.some r => pyOr r.structured_output r.output
        | Option.none => PyVal.none) := by
  induction l with
  | nil => rfl
  | cons r rest ih =>
    by_cases h : r.status = ChainStepStatus.completed
    · simp [lastCompletedFrom, h, List.find?_cons]
    · simp [lastCompletedFrom, h, List.find?_cons, ih]

/-- C7 (confirmed): for every chain execution result (any mode), `success` is
true iff every step result is `completed` (a skipped step makes it false),
and `final_output` is `structured_output or output` of the last `completed`
step scanning from the end — `None` when no step completed. -/
theorem C7_theorem (chain : ChainDefinition) (vars : Ctx) (oracle : StepOracle)
    (condOracle : String → Ctx → Option Bool) :
    ((execute_chain chain vars oracle condOracle).success = true ↔
      ∀ r ∈ (execute_chain chain vars oracle condOracle).steps,
        r.status = ChainStepStatus.completed) ∧
    (execute_chain chain vars oracle condOracle).final_output =
      (match (execute_chain chain vars oracle condOracle).steps.reverse.find?
          (fun r => decide (r.status = ChainStepStatus.completed)) with
        | Option.some r => pyOr r.structured_output r.output
        | Option.none => PyVal.none) ∧
    ((∀ r ∈ (execute_chain chain vars oracle condOracle).steps,
        r.status ≠ ChainStepStatus.completed) →
      (execute_chain chain vars oracle condOracle).final_output = PyVal.none) := by
  have hsucc : (execute_chain chain vars oracle condOracle).success =
      (execute_chain chain vars oracle condOracle).steps.all
        (fun r => decide (r.status = ChainStepStatus.completed)) := rfl
  have hfin : (execute_chain chain vars oracle condOracle).final_output =
      finalOutputOf (execute_chain chain vars oracle condOracle).steps := rfl
  refine ⟨?_, ?_, ?_⟩
  · rw [hsucc]
    simp [List.all_eq_true]
  · rw [hfin, finalOutputOf, lastCompletedFrom_eq_find]
  · intro h
    rw [hfin, finalOutputOf, lastCompletedFrom_eq_find]
    have : (execute_chain chain vars oracle condOracle).steps.reverse.find?
        (fun r => decide (r.status = ChainStepStatus.completed)) = Option.none := by
      rw [List.find?_eq_none]
      intro r hr
      simpa using h r (List.mem_reverse.mp hr)
    rw [this]

/-- C7 witness: a chain with no steps has no completed step, so the final
output is `None`. -/
theorem C7_witness :
    (execute_chain chainEmpty [] okStepOracle noCondOracle).final_output = PyVal.none :=
  (C7_theorem chainEmpty [] okStepOracle noCondOracle).2.2 (by decide)

/-- Positionwise behaviour of the `stream_execute` loop: a step's yielded
result is the dependency-skip record exactly when some dependency id is
missing from the keys of the context at that step. -/
theorem stream_execute_go_spec (oracle : StepOracle) :
    ∀ (steps : List ChainStepDefinition) (ctx : Ctx),
      (stream_execute_go oracle steps ctx).length = steps.length ∧
      ∀ (i : Nat) (hi : i < steps.length),
        (((stream_execute_go oracle steps ctx).getD i dummyCtxResult).2 =
            skipRec (steps.get ⟨i, hi⟩) ↔
          ¬ ((steps.get ⟨i, hi⟩).dependencies.all
              (fun dep => ctxMem ((stream_execute_go oracle steps ctx).getD i dummyCtxResult).1 dep)
            = true)) := by
  intro steps
  induction steps with
  | nil =>
    intro ctx
    refine ⟨rfl, ?_⟩
    intro i hi
    exact absurd hi (by simp)
  | cons step rest ih =>
    intro ctx
    by_cases hdep : step.dependencies.all (fun dep => ctxMem ctx dep)
    · constructor
      · simpa [stream_execute_go, hdep]
          using (ih (ctxUpdate ctx step (_execute_step step (oracle step.id ctx)).result)).1
      · intro i hi
        cases i with
        | zero =>
          have hns := _execute_step_go_not_skipped step (oracle step.id ctx)
            (step.retry_count + 1) 0 Option.none
          constructor
          · intro h
            exfalso
            apply hns
            rw [show (_execute_step_go step (oracle step.id ctx) (step.retry_count + 1) 0
                Option.none) = _execute_step step (oracle step.id ctx) from rfl]
            have : (_execute_step step (oracle step.id ctx)).result = skipRec step := by
              simpa [stream_execute_go, hdep] using h
            rw [this]
            simp [skipRec]
          · intro h
            exfalso
            apply h
            have hg : ((stream_execute_go oracle (step :: rest) ctx).getD 0 dummyCtxResult).1 =
                ctx := by
              simp [stream_execute_go, hdep]
            rw [hg]
            simpa using hdep
        | succ j =>
          have hj : j < rest.length := by simpa using hi
          have := (ih (ctxUpdate ctx step (_execute_step step (oracle step.id ctx)).result)).2 j hj
          simpa [stream_execute_go, hdep] using this
    · have hdf : step.dependencies.all (fun dep => ctxMem ctx dep) = false := by
        simpa using hdep
      constructor
      · simpa [stream_execute_go, hdf] using (ih ctx).1
      · intro i hi
        cases i with
        | zero =>
          constructor
          · intro _
            simp [stream_execute_go, hdf]
          · intro _
            simp [stream_execute_go, hdf]
        | succ j =>
          have hj : j < rest.length := by simpa using hi
          have := (ih ctx).2 j hj
          simpa [stream_execute_go, hdf] using this

/-- C10 (confirmed): in `stream_execute` a step's dependencies are considered
met iff every dependency id is a key of the context at that step — not via
result status.  Consequently, in the chain `a ; b (depends on a)` where step
`a` completes but stores its output under key `out`, step `b` is yielded as
skipped; and in the chain `x ; b (depends on x)` with an initial variable
bound to key `x`, step `b` runs (and completes) even though step `x` failed. -/
theorem C10_theorem :
    (∀ (chain : ChainDefinition) (vars : Ctx) (oracle : StepOracle)
        (i : Nat) (hi : i < chain.steps.length),
      (((stream_execute_go oracle chain.steps (ctxMerge chain.vars vars)).getD i
            dummyCtxResult).2 =
          skipRec (chain.steps.get ⟨i, hi⟩) ↔
        ¬ ((chain.steps.get ⟨i, hi⟩).dependencies.all
            (fun dep => ctxMem
              ((stream_execute_go oracle chain.steps (ctxMerge chain.vars vars)).getD i
                dummyCtxResult).1 dep) = true))) ∧
    ((stream_execute chainAB [] okStepOracle).getD 0 dummyStepResult).status =
      ChainStepStatus.completed ∧
    (stream_execute chainAB [] okStepOracle).getD 1 dummyStepResult = skipRec stepB ∧
    ((stream_execute chainXB [] failXOracle).getD 0 dummyStepResult).status =
      ChainStepStatus.failed ∧
    ((stream_execute chainXB [] failXOracle).getD 1 dummyStepResult).status =
      ChainStepStatus.completed := by
  refine ⟨?_, by decide, by decide, by decide, by decide⟩
  intro chain vars oracle i hi
  exact (stream_execute_go_spec oracle chain.steps (ctxMerge chain.vars vars)).2 i hi

/-- C10 witness: the characterization applied to the concrete chain
`a ; b (depends on a)` at index 1. -/
theorem C10_witness :
    ((stream_execute_go okStepOracle chainAB.steps (ctxMerge chainAB.vars [])).getD 1
        dummyCtxResult).2 =
      skipRec (chainAB.steps.get ⟨1, by decide⟩) ↔
    ¬ ((chainAB.steps.get ⟨1, by decide⟩).dependencies.all
        (fun dep => ctxMem
          ((stream_execute_go okStepOracle chainAB.steps (ctxMerge chainAB.vars [])).getD 1
            dummyCtxResult).1 dep) = true) :=
  C10_theorem.1 chainAB [] okStepOracle 1 (by decide)

/-- One-step unfolding of the `while remaining:` grouping loop. -/
theorem _group_go_eq (remaining : List ChainStepDefinition) (resolved : List String) :
    _group_go remaining resolved =
      if remaining = [] then []
      else if remaining.filter (resolvable resolved) = [] then [remaining]
      else (remaining.filter (resolvable resolved)) ::
        _group_go (remaining.filter (fun s => !resolvable resolved s))
          (resolved ++ (remaining.filter (resolvable resolved)).map (fun s => s.id)) := by
  cases remaining with
  | nil => simp [_group_go]
  | cons a t =>
    rw [_group_go]
    simp

/-- The levels of the grouping loop contain, as a multiset, exactly the
remaining steps. -/
theorem _group_go_flatten_perm :
    ∀ (n : Nat) (remaining : List ChainStepDefinition), remaining.length ≤ n →
    ∀ resolved : List String,
      List.Perm (_group_go remaining resolved).flatten remaining := by
  intro n
  induction n with
  | zero =>
    intro remaining hlen resolved
    have : remaining = [] := List.length_eq_zero.mp (by omega)
    subst this
    simp [_group_go_eq]
  | succ n ih =>
    intro remaining hlen resolved
    by_cases hnil : remaining = []
    · subst hnil; simp [_group_go_eq]
    · by_cases hcur : remaining.filter (resolvable resolved) = []
      · simp [_group_go_eq, hnil, hcur]
      · rw [_group_go_eq, if_neg hnil, if_neg hcur]
        have hlt := length_filter_neg_lt (resolvable resolved) remaining hcur
        have hrec := ih (remaining.filter (fun s => !resolvable resolved s)) (by omega)
          (resolved ++ (remaining.filter (resolvable resolved)).map (fun s => s.id))
        have h1 : List.Perm
            ((remaining.filter (resolvable resolved)) ::
              _group_go (remaining.filter (fun s => !resolvable resolved s))
                (resolved ++ (remaining.filter (resolvable resolved)).map (fun s => s.id))).flatten
            (remaining.filter (resolvable resolved) ++
              remaining.filter (fun s => !resolvable resolved s)) := by
          simpa [List.flatten_cons] using
            List.Perm.append_left (remaining.filter (resolvable resolved)) hrec
        exact h1.trans (List.filter_append_perm (resolvable resolved) remaining)

/-- The grouping loop produces at most one level per remaining step. -/
theorem _group_go_length_le :
    ∀ (n : Nat) (remaining : List ChainStepDefinition), remaining.length ≤ n →
    ∀ resolved : List String,
      (_group_go remaining resolved).length ≤ remaining.length := by
  intro n
  induction n with
  | zero =>
    intro remaining hlen resolved
    have : remaining = [] := List.length_eq_zero.mp (by omega)
    subst this
    simp [_group_go_eq]
  | succ n ih =>
    intro remaining hlen resolved
    by_cases hnil : remaining = []
    · subst hnil; simp [_group_go_eq]
    · by_cases hcur : remaining.filter (resolvable resolved) = []
      · rw [_group_go_eq, if_neg hnil, if_pos hcur]
        have : 1 ≤ remaining.length := by
          cases remaining with
          | nil => exact absurd rfl hnil
          | cons a t => simp
        simpa using this
      · rw [_group_go_eq, if_neg hnil, if_neg hcur]
        have hlt := length_filter_neg_lt (resolvable resolved) remaining hcur
        have hrec := ih (remaining.filter (fun s => !resolvable resolved s)) (by omega)
          (resolved ++ (remaining.filter (resolvable resolved)).map (fun s => s.id))
        simp only [List.length_cons]
        omega

/-- A member of any level of a level list is a member of its flattening. -/
theorem mem_getD_flatten {α : Type} : ∀ (l : List (List α)) (k : Nat) (s : α),
    s ∈ l.getD k [] → s ∈ l.flatten := by
  intro l
  induction l with
  | nil =>
    intro k s hs
    simp [List.getD] at hs
  | cons a t iht =>
    intro k s hs
    cases k with
    | zero =>
      simp only [List.getD_cons_zero] at hs
      simp only [List.flatten_cons]
      exact List.mem_append.mpr (Or.inl hs)
    | succ m =>
      simp only [List.getD_cons_succ] at hs
      simp only [List.flatten_cons]
      exact List.mem_append.mpr (Or.inr (iht m s hs))

/-- Placement property of the grouping loop: a step sits in a level only if
its dependencies are resolved by the preceding levels (or the level is the
degenerate final dump), and its dependencies are *not* resolved before any
earlier level. -/
theorem _group_go_place :
    ∀ (n : Nat) (remaining : List ChainStepDefinition), remaining.length ≤ n →
    ∀ (resolved : List String) (k : Nat) (s : ChainStepDefinition),
      s ∈ (_group_go remaining resolved).getD k [] →
      (resolvable (resolved ++ levelIds ((_group_go remaining resolved).take k)) s = true ∨
        k + 1 = (_group_go remaining resolved).length) ∧
      (∀ j, j < k →
        resolvable (resolved ++ levelIds ((_group_go remaining resolved).take j)) s = false) := by
  intro n
  induction n with
  | zero =>
    intro remaining hlen resolved k s hs
    have : remaining = [] := List.length_eq_zero.mp (by omega)
    subst this
    rw [_group_go_eq] at hs
    simp [List.getD] at hs
  | succ n ih =>
    intro remaining hlen resolved k s hs
    by_cases hnil : remaining = []
    · subst hnil
      rw [_group_go_eq] at hs
      simp [List.getD] at hs
    · by_cases hcur : remaining.filter (resolvable resolved) = []
      · rw [_group_go_eq, if_neg hnil, if_pos hcur] at hs ⊢
        cases k with
        | zero =>
          exact ⟨Or.inr rfl, by intro j hj; omega⟩
        | succ m =>
          simp only [List.getD_cons_succ, List.getD] at hs
          simp at hs
      · rw [_group_go_eq, if_neg hnil, if_neg hcur] at hs ⊢
        have hlt := length_filter_neg_lt (resolvable resolved) remaining hcur
        have htrans : ∀ m : Nat,
            resolved ++ levelIds
              (((remaining.filter (resolvable resolved)) ::
                _group_go (remaining.filter (fun x => !resolvable resolved x))
                  (resolved ++ (remaining.filter (resolvable resolved)).map (fun x => x.id))).take
                (m + 1)) =
            (resolved ++ (remaining.filter (resolvable resolved)).map (fun x => x.id)) ++
              levelIds ((_group_go (remaining.filter (fun x => !resolvable resolved x))
                (resolved ++ (remaining.filter (resolvable resolved)).map (fun x => x.id))).take m) := by
          intro m
          simp [levelIds, List.take_succ_cons, List.flatten_cons, List.map_append,
            List.append_assoc]
        cases k with
        | zero =>
          simp only [List.getD_cons_zero] at hs
          constructor
          · left
            simp only [List.take_zero, levelIds, List.flatten_nil, List.map_nil,
              List.append_nil]
            exact (List.mem_filter.mp hs).2
          · intro j hj; omega
        | succ m =>
          simp only [List.getD_cons_succ] at hs
          obtain ⟨pos', neg'⟩ := ih (remaining.filter (fun x => !resolvable resolved x))
            (by omega)
            (resolved ++ (remaining.filter (resolvable resolved)).map (fun x => x.id)) m s hs
          constructor
          · rcases pos' with hres | hlen'
            · left
              rw [htrans m]
              exact hres
            · right
              simp only [List.length_cons]
              omega
          · intro j hj
            cases j with
            | zero =>
              simp only [List.take_zero, levelIds, List.flatten_nil, List.map_nil,
                List.append_nil]
              have hmem : s ∈ (_group_go (remaining.filter (fun x => !resolvable resolved x))
                  (resolved ++ (remaining.filter (resolvable resolved)).map (fun x => x.id))).flatten :=
                mem_getD_flatten _ m s hs
              have hperm := _group_go_flatten_perm
                (remaining.filter (fun x => !resolvable resolved x)).length
                (remaining.filter (fun x => !resolvable resolved x)) le_rfl
                (resolved ++ (remaining.filter (resolvable resolved)).map (fun x => x.id))
              have : s ∈ remaining.filter (fun x => !resolvable resolved x) :=
                hperm.mem_iff.mp hmem
              have := (List.mem_filter.mp this).2
              simpa using this
            | succ m' =>
              rw [htrans m']
              exact neg' m' (by omega)

/-- C8 (confirmed): the dependency grouping partitions the steps into levels
(each step appears exactly once across the levels, as a multiset), a step is
placed in the first level whose predecessors resolve all its dependencies
(its dependencies fail to resolve before every earlier level, and resolve at
its own level unless it sits in the degenerate last level), when no remaining
step is resolvable all remaining steps are dumped into one final level rather
than raising, and the grouping always terminates with at most one level per
step. -/
theorem C8_theorem (steps : List ChainStepDefinition) :
    List.Perm (_group_by_dependency_level steps).flatten steps ∧
    (_group_by_dependency_level steps).length ≤ steps.length ∧
    (∀ (remaining : List ChainStepDefinition) (resolved : List String),
      remaining ≠ [] → remaining.filter (resolvable resolved) = [] →
      _group_go remaining resolved = [remaining]) ∧
    (∀ (k : Nat) (s : ChainStepDefinition),
      s ∈ (_group_by_dependency_level steps).getD k [] →
      (resolvable (levelIds ((_group_by_dependency_level steps).take k)) s = true ∨
        k + 1 = (_group_by_dependency_level steps).length) ∧
      (∀ j, j < k →
        resolvable (levelIds ((_group_by_dependency_level steps).take j)) s = false)) := by
  refine ⟨_group_go_flatten_perm steps.length steps le_rfl [],
    _group_go_length_le steps.length steps le_rfl [], ?_, ?_⟩
  · intro remaining resolved h1 h2
    rw [_group_go_eq, if_neg h1, if_pos h2]
  · intro k s hs
    obtain ⟨pos, neg⟩ := _group_go_place steps.length steps le_rfl [] k s hs
    constructor
    · simpa using pos
    · intro j hj
      simpa using neg j hj

/-- C8 witness: a self-dependent (cyclic) single step is dumped into one
final level and not rejected. -/
theorem C8_witness : _group_go [stepCyc] [] = [[stepCyc]] :=
  (C8_theorem [stepCyc]).2.2.1 [stepCyc] [] (by decide) (by decide)

/-- Every result the retry loop returns carries the item's id. -/
theorem _process_item_go_ok_id (cfg : BatchConfig) (item : BatchItem)
    (oracle : Nat → Except String String) :
    ∀ (fuel a : Nat) (le : Option String) (rc : Nat) (r : BatchItemResult),
      (_process_item_go cfg item oracle fuel a le rc).result = Except.ok r →
      r.item_id = item.id := by
  intro fuel
  induction fuel with
  | zero =>
    intro a le rc r h
    simp [_process_item_go] at h
    rw [← h]
  | succ n ih =>
    intro a le rc r h
    cases ho : oracle a with
    | ok content =>
      simp [_process_item_go, ho] at h
      rw [← h]
    | error e =>
      by_cases hstop : cfg.stop_on_error
      · simp [_process_item_go, ho, hstop] at h
      · simp only [_process_item_go, ho, hstop, Bool.false_eq_true, if_false] at h
        exact ih (a + 1) (Option.some e) a r h

/-- A settled gather entry always carries the item's id. -/
theorem settleItem_item_id (cfg : BatchConfig) (c : Bool)
    (oracle : Nat → Except String String) (item : BatchItem) :
    (settleItem cfg c oracle item).item_id = item.id := by
  unfold settleItem
  cases h : (_process_item cfg c item oracle).result with
  | error e => simp
  | ok r =>
    simp only []
    by_cases hcan : c
    · subst hcan
      simp [_process_item] at h
      rw [← h]
    · have hcf : c = false := by simpa using hcan
      subst hcf
      simp only [_process_item, Bool.false_eq_true, if_false] at h
      exact _process_item_go_ok_id cfg item oracle (cfg.retry_attempts + 1) 0 Option.none 0 r h

/-- Among elements with pairwise-distinct keys, exactly one carries any key
that occurs at all. -/
theorem countP_key_one {α : Type} (f : α → String) (a : String) :
    ∀ l : List α, (l.map f).Nodup → l.any (fun x => decide (f x = a)) = true →
      l.countP (fun x => decide (f x = a)) = 1 := by
  intro l
  induction l with
  | nil => intro _ h; simp at h
  | cons x t ih =>
    intro hn ha
    have hn' : (t.map f).Nodup := (List.nodup_cons.mp (by simpa using hn)).2
    by_cases hx : f x = a
    · have hzero : t.countP (fun y => decide (f y = a)) = 0 := by
        apply List.countP_eq_zero.mpr
        intro y hy hya
        have hfya : f y = a := by simpa using hya
        have : f x ∈ t.map f := by
          rw [hx, ← hfya]
          exact List.mem_map_of_mem f hy
        exact (List.nodup_cons.mp (by simpa using hn)).1 this
      simp [List.countP_cons, hx, hzero]
    · have hat : t.any (fun y => decide (f y = a)) = true := by
        simpa [List.any_cons, hx] using ha
      simp [List.countP_cons, hx, ih hn' hat]

/-- Two duplicate-free lists over the same members have the same length. -/
theorem nodup_length_eq_of_mem_iff (l₁ l₂ : List String)
    (h1 : l₁.Nodup) (h2 : l₂.Nodup) (h : ∀ a, a ∈ l₁ ↔ a ∈ l₂) :
    l₁.length = l₂.length := by
  rw [← List.toFinset_card_of_nodup h1, ← List.toFinset_card_of_nodup h2]
  congr 1
  ext a
  simp [h a]

/-- A filter and its complement split a list's length. -/
theorem length_filter_add {α : Type} (p : α → Bool) (l : List α) :
    (l.filter p).length + (l.filter (fun x => !p x)).length = l.length := by
  have := (List.filter_append_perm p l).length_eq
  simpa [List.length_append] using this

/-- C3 (confirmed): rerunning a `partial` job processes exactly the items
with no recorded result (an item whose id already appears in the results is
skipped), and afterwards the results list holds exactly one result per item —
none duplicated, none dropped — whenever the job's items have pairwise
distinct ids and its recorded results are well-formed (one per item id, ids
drawn from the job's items), as every service-produced job state is. -/
theorem C3_theorem (job : BatchJob) (oracle : BatchItem → Nat → Except String String)
    (c : Bool)
    (hstatus : job.status = BatchStatus.partialRes)
    (hitems : (job.items.map (fun it => it.id)).Nodup)
    (hres : (job.results.map (fun r => r.item_id)).Nodup)
    (hsub : ∀ r ∈ job.results, ∃ it ∈ job.items, r.item_id = it.id) :
    (∀ it : BatchItem, it ∈ pendingItems job ↔
      (it ∈ job.items ∧ ∀ r ∈ job.results, r.item_id ≠ it.id)) ∧
    (run_job_core c oracle job).results =
      job.results ++ (pendingItems job).map (fun it => settleItem job.config c (oracle it) it) ∧
    (∀ it ∈ job.items,
      ((run_job_core c oracle job).results.filter
        (fun r => decide (r.item_id = it.id))).length = 1) ∧
    (run_job_core c oracle job).results.length = job.items.length := by
  have hresults : (run_job_core c oracle job).results =
      job.results ++ (pendingItems job).map (fun it => settleItem job.config c (oracle it) it) :=
    rfl
  refine ⟨?_, hresults, ?_, ?_⟩
  · intro it
    simp [pendingItems, List.mem_filter]
  · intro it hit
    rw [hresults, List.filter_append, List.length_append,
      ← List.countP_eq_length_filter, ← List.countP_eq_length_filter]
    have hmapped : ((pendingItems job).map (fun x => settleItem job.config c (oracle x) x)).countP
        (fun r => decide (r.item_id = it.id)) =
        (pendingItems job).countP (fun x => decide (x.id = it.id)) := by
      rw [List.countP_map]
      apply List.countP_congr
      intro x _
      simp [Function.comp, settleItem_item_id]
    by_cases hP : job.results.any (fun r => decide (r.item_id = it.id)) = true
    · have h1 : job.results.countP (fun r => decide (r.item_id = it.id)) = 1 :=
        countP_key_one (fun r => r.item_id) it.id job.results hres hP
      have h0 : (pendingItems job).countP (fun x => decide (x.id = it.id)) = 0 := by
        apply List.countP_eq_zero.mpr
        intro x hx hxid
        have hxid' : x.id = it.id := by simpa using hxid
        have hx' := List.mem_filter.mp hx
        have hany : job.results.any (fun r => decide (r.item_id = x.id)) = false := by
          simpa using hx'.2
        rw [hxid', hP] at hany
        cases hany
      rw [hmapped, h1, h0]
    · have hPf : job.results.any (fun r => decide (r.item_id = it.id)) = false := by
        simpa using hP
      have h0 : job.results.countP (fun r => decide (r.item_id = it.id)) = 0 := by
        apply List.countP_eq_zero.mpr
        intro r hr hrid
        exact (List.any_eq_false.mp hPf) r hr hrid
      have hpendNodup : ((pendingItems job).map (fun x => x.id)).Nodup :=
        hitems.sublist ((List.filter_sublist job.items).map _)
      have hmem : it ∈ pendingItems job :=
        List.mem_filter.mpr ⟨hit, by simp [hPf]⟩
      have hany : (pendingItems job).any (fun x => decide (x.id = it.id)) = true :=
        List.any_eq_true.mpr ⟨it, hmem, by simp⟩
      have h1 : (pendingItems job).countP (fun x => decide (x.id = it.id)) = 1 :=
        countP_key_one (fun x => x.id) it.id (pendingItems job) hpendNodup hany
      rw [hmapped, h0, h1]
  · rw [hresults, List.length_append, List.length_map]
    have hkey : job.results.length =
        (job.items.filter
          (fun it => job.results.any (fun r => decide (r.item_id = it.id)))).length := by
      have h1 : job.results.length = (job.results.map (fun r => r.item_id)).length := by simp
      have h2 : (job.items.filter
          (fun it => job.results.any (fun r => decide (r.item_id = it.id)))).length =
          ((job.items.filter
            (fun it => job.results.any (fun r => decide (r.item_id = it.id)))).map
              (fun it => it.id)).length := by
        simp
      rw [h1, h2]
      apply nodup_length_eq_of_mem_iff _ _ hres
      · exact hitems.sublist ((List.filter_sublist job.items).map _)
      · intro a
        constructor
        · intro ha
          obtain ⟨r, hr, hra⟩ := List.mem_map.mp ha
          obtain ⟨it, hit, hrid⟩ := hsub r hr
          apply List.mem_map.mpr
          refine ⟨it, List.mem_filter.mpr ⟨hit, ?_⟩, by rw [← hrid, hra]⟩
          exact List.any_eq_true.mpr ⟨r, hr, by simp [hrid]⟩
        · intro ha
          obtain ⟨it, hit, hia⟩ := List.mem_map.mp ha
          obtain ⟨hitmem, hP⟩ := List.mem_filter.mp hit
          obtain ⟨r, hr, hrid⟩ := List.any_eq_true.mp hP
          apply List.mem_map.mpr
          refine ⟨r, hr, ?_⟩
          have : r.item_id = it.id := by simpa using hrid
          rw [this, hia]
    have hsplit := length_filter_add
      (fun it => job.results.any (fun r => decide (r.item_id = it.id))) job.items
    have hpend : (pendingItems job).length =
        (job.items.filter
          (fun it => !(job.results.any (fun r => decide (r.item_id = it.id))))).length := rfl
    omega

/-- C3 witness: rerunning the concrete `partial` two-item job (only item `a`
resolved) yields exactly one result per item. -/
theorem C3_witness :
    (run_job_core false (fun _ => okOracle) jobPartial).results.length =
      jobPartial.items.length :=
  (C3_theorem jobPartial (fun _ => okOracle) false (by decide) (by decide)
    (by decide) (by decide)).2.2.2
